import Mathlib

/-!
Verification of the `atomption` crate: a single-slot `AtomicOption<T>`
container built on one `AtomicPtr<T>` cell (src/src/lib.rs).

The slot holds either the null sentinel or the address of a heap `Box<T>`.
We embed the state as that slot value. Since `Box::into_raw` and
`Box::from_raw` are mutually inverse ownership conversions, a non-null
address is modelled as the value it points to. Every public operation is a
single atomic exchange on the slot followed by pure pointer bookkeeping,
so each operation is one step of a deterministic state machine.

For the ownership-accounting claims we additionally run traces of
operations while recording which values the container hands back to the
caller and which it releases (drops) itself.
-/

namespace Atomption

/-- A raw `*mut T` slot value: the null sentinel, or the address of a
heap allocation holding `v` (lines 7-10 of src/src/lib.rs). -/
inductive Ptr (T : Type) where
  | null : Ptr T
  | box : T → Ptr T
deriving DecidableEq

/-- The container: a single atomically-exchanged pointer cell. The
`PhantomData` marker field carries no data and is omitted. -/
structure AtomicOption (T : Type) where
  inner : Ptr T
deriving DecidableEq

/-- Lines 25-29 of `swap`: `Box::into_raw` on a present value, the null
sentinel `null_mut()` on an absent one. -/
def optionToRaw {T : Type} : Option T → Ptr T
  | some v => Ptr.box v
  | none => Ptr.null

/-- Lines 32-36 of `swap`: a null address becomes `None`, a non-null one
is turned back into an owned `Box` via `Box::from_raw`. -/
def rawToOption {T : Type} : Ptr T → Option T
  | Ptr.null => none
  | Ptr.box v => some v

/-- Line 31: `AtomicPtr::swap` with AcqRel ordering — one indivisible
read-modify-write returning the old slot value and installing the new. -/
def atomicPtrSwap {T : Type} (s : AtomicOption T) (p : Ptr T) : Ptr T × AtomicOption T :=
  (s.inner, ⟨p⟩)

/-- `AtomicOption::swap` (lines 24-37): convert the optional box to a raw
address, exchange it atomically, convert the old address back. Returns
the previous occupant and the post-state. -/
def AtomicOption.swap {T : Type} (s : AtomicOption T) (new : Option T) : Option T × AtomicOption T :=
  let addr := optionToRaw new
  let res := atomicPtrSwap s addr
  (rawToOption res.1, res.2)

/-- `AtomicOption::take` (lines 40-42): literally `self.swap(None)`. -/
def AtomicOption.take {T : Type} (s : AtomicOption T) : Option T × AtomicOption T :=
  s.swap none

/-- `AtomicOption::store` (lines 45-47): `drop(self.swap(new))`. Rust
returns `()`; the embedding returns the post-state together with the list
of values the `drop` released (empty or a singleton). -/
def AtomicOption.store {T : Type} (s : AtomicOption T) (new : Option T) : AtomicOption T × List T :=
  let res := s.swap new
  (res.2, res.1.toList)

/-- `AtomicOption::new` (lines 14-21): build the empty container, then
`store(data)` into it. Returns the container and the values that the
inner `store` released. -/
def AtomicOption.new {T : Type} (data : Option T) : AtomicOption T × List T :=
  let empty : AtomicOption T := ⟨Ptr.null⟩
  empty.store data

/-- The `Drop` impl (lines 53-57): `let _ = self.take()`, whose result is
dropped at once. Returns the drained state and the released values. -/
def AtomicOption.dropDrain {T : Type} (s : AtomicOption T) : AtomicOption T × List T :=
  let res := s.take
  (res.2, res.1.toList)

/-- Spec wording for `take` (§4.2): removes and returns whatever is
currently present, leaving the container empty. -/
def takeSpec {T : Type} (s : AtomicOption T) : Option T × AtomicOption T :=
  (rawToOption s.inner, ⟨Ptr.null⟩)

theorem rawToOption_optionToRaw {T : Type} (x : Option T) :
    rawToOption (optionToRaw x) = x := by
  cases x <;> rfl

/-- C1: swap on any state (empty, i.e. slot `optionToRaw none`, or
occupied by `v_old`, i.e. slot `optionToRaw (some v_old)`) returns
exactly the previous occupant unchanged and leaves the slot holding
exactly the new optional value, in the single indivisible
`atomicPtrSwap` step. -/
theorem atomption_C1 (T : Type) (old new : Option T) :
    ((AtomicOption.mk (optionToRaw old)).swap new).1 = old ∧
    ((AtomicOption.mk (optionToRaw old)).swap new).2 = AtomicOption.mk (optionToRaw new) := by
  refine ⟨?_, rfl⟩
  simpa [AtomicOption.swap, atomicPtrSwap] using rawToOption_optionToRaw old

/-- C2: constructing with `new initial` and then calling `take` returns
exactly `initial` (absent for an empty construction, the unchanged value
for a pre-populated one) and leaves the container empty. -/
theorem atomption_C2 (T : Type) (initial : Option T) :
    ((AtomicOption.new initial).1.take).1 = initial ∧
    ((AtomicOption.new initial).1.take).2 = AtomicOption.mk Ptr.null := by
  cases initial <;> exact ⟨rfl, rfl⟩

/-- C3: on an empty container, `swap (some v)` returns absent, and the
immediately following `take` returns `some v` unchanged and leaves the
container empty. -/
theorem atomption_C3 (T : Type) (v : T) :
    ((AtomicOption.mk (Ptr.null : Ptr T)).swap (some v)).1 = none ∧
    (((AtomicOption.mk (Ptr.null : Ptr T)).swap (some v)).2.take).1 = some v ∧
    (((AtomicOption.mk (Ptr.null : Ptr T)).swap (some v)).2.take).2 = AtomicOption.mk Ptr.null := by
  exact ⟨rfl, rfl, rfl⟩

/-- C4: `take` is extensionally equal to `swap none`: same returned value
and same final state on every container state; both coincide with the
spec's description of `take` (remove the occupant, leave empty). -/
theorem atomption_C4 (T : Type) (s : AtomicOption T) :
    s.take = s.swap none ∧ s.take = takeSpec s := by
  exact ⟨rfl, rfl⟩

/-- C5: from an empty container, `store (some a)` releases nothing,
`store (some b)` releases exactly `a` (once, at that moment), and the
following `swap (some c)` returns `some b`. The construction itself
releases nothing either. -/
theorem atomption_C5 (T : Type) (a b c : T) :
    (AtomicOption.new (none : Option T)).2 = [] ∧
    ((AtomicOption.new (none : Option T)).1.store (some a)).2 = [] ∧
    ((((AtomicOption.new (none : Option T)).1.store (some a)).1).store (some b)).2 = [a] ∧
    ((((((AtomicOption.new (none : Option T)).1.store (some a)).1).store (some b)).1).swap (some c)).1 = some b := by
  exact ⟨rfl, rfl, rfl, rfl⟩

/-- C6: every public operation is a total function of its whole input
domain — for any state and any optional argument (including absent) it
completes with a value, and the `Box::from_raw` reconstruction branch of
`swap` yields a value exactly when the exchanged-out address is not the
null sentinel. -/
theorem atomption_C6 (T : Type) (s : AtomicOption T) (v : Option T) :
    (∃ r, s.swap v = r) ∧ (∃ r, s.take = r) ∧ (∃ r, s.store v = r) ∧
    (∃ r, AtomicOption.new v = r) ∧ (∃ r, s.dropDrain = r) ∧
    (∀ p : Ptr T, (rawToOption p).isSome ↔ p ≠ Ptr.null) := by
  refine ⟨⟨_, rfl⟩, ⟨_, rfl⟩, ⟨_, rfl⟩, ⟨_, rfl⟩, ⟨_, rfl⟩, ?_⟩
  intro p
  cases p <;> simp [rawToOption]

/-- Iterated `take`: the list of returned values of `n` successive calls
and the resulting state. -/
def takeN {T : Type} (s : AtomicOption T) : Nat → List (Option T) × AtomicOption T
  | 0 => ([], s)
  | n + 1 =>
      let r := s.take
      let rest := takeN r.2 n
      (r.1 :: rest.1, rest.2)

theorem takeN_null {T : Type} (n : Nat) :
    takeN (AtomicOption.mk (Ptr.null : Ptr T)) n =
      (List.replicate n none, AtomicOption.mk Ptr.null) := by
  induction n with
  | zero => rfl
  | succ n ih =>
      simp [takeN, List.replicate, AtomicOption.take, AtomicOption.swap,
        atomicPtrSwap, optionToRaw, rawToOption, ih]

/-- C7: for every n ≥ 1, calling `take` n times in a row on an
already-empty container returns absent every single time and leaves the
container in the identical empty state after each call. -/
theorem atomption_C7 (T : Type) (n : Nat) (h : 1 ≤ n) :
    (takeN (AtomicOption.mk (Ptr.null : Ptr T)) n).1 = List.replicate n none ∧
    (takeN (AtomicOption.mk (Ptr.null : Ptr T)) n).2 = AtomicOption.mk Ptr.null := by
  rw [takeN_null]
  exact ⟨rfl, rfl⟩

/-- Witness for C7 at T = Nat and n = 3. -/
theorem atomption_C7_witness :
    1 ≤ 3 ∧
    ((takeN (AtomicOption.mk (Ptr.null : Ptr Nat)) 3).1 = List.replicate 3 none ∧
     (takeN (AtomicOption.mk (Ptr.null : Ptr Nat)) 3).2 = AtomicOption.mk Ptr.null) :=
  ⟨by decide, atomption_C7 Nat 3 (by decide)⟩

/-- C10: every operation is deterministic — equal states and equal
optional inputs yield equal results and equal final states, for `swap`,
`take`, `store`, `new` and destruction alike. -/
theorem atomption_C10 (T : Type) (s₁ s₂ : AtomicOption T) (v₁ v₂ : Option T)
    (hs : s₁ = s₂) (hv : v₁ = v₂) :
    s₁.swap v₁ = s₂.swap v₂ ∧ s₁.take = s₂.take ∧ s₁.store v₁ = s₂.store v₂ ∧
    AtomicOption.new v₁ = AtomicOption.new v₂ ∧ s₁.dropDrain = s₂.dropDrain := by
  subst hs; subst hv
  exact ⟨rfl, rfl, rfl, rfl, rfl⟩

/-- Witness for C10 at T = Nat, both states empty, both inputs absent. -/
theorem atomption_C10_witness :
    (AtomicOption.mk (Ptr.null : Ptr Nat)).swap none =
      (AtomicOption.mk (Ptr.null : Ptr Nat)).swap none ∧
    (AtomicOption.mk (Ptr.null : Ptr Nat)).take = (AtomicOption.mk (Ptr.null : Ptr Nat)).take ∧
    (AtomicOption.mk (Ptr.null : Ptr Nat)).store none =
      (AtomicOption.mk (Ptr.null : Ptr Nat)).store none ∧
    AtomicOption.new (none : Option Nat) = AtomicOption.new (none : Option Nat) ∧
    (AtomicOption.mk (Ptr.null : Ptr Nat)).dropDrain =
      (AtomicOption.mk (Ptr.null : Ptr Nat)).dropDrain :=
  atomption_C10 Nat ⟨Ptr.null⟩ ⟨Ptr.null⟩ none none rfl rfl

/-- A public mutating call on a live container, as issued by a caller:
`swap` with an optional value, `take`, or `store` with an optional
value. -/
inductive Op (T : Type) where
  | swap (new : Option T)
  | take
  | store (new : Option T)

/-- The optional value a call hands over to the container (absent for
`take`, which is `swap none`). This is also the raw argument of the
underlying atomic exchange that every one of the three calls performs. -/
def opInput {T : Type} : Op T → Option T
  | Op.swap new => new
  | Op.take => none
  | Op.store new => new

/-- A container state together with the accounting of the values the
container has handed back to callers (`returned`, via `swap`/`take`
results) and of the values it has dropped itself (`released`, via
`store` and destruction). -/
structure TraceState (T : Type) where
  st : AtomicOption T
  returned : List T
  released : List T

/-- Execute one call, extending the accounting lists. -/
def stepOp {T : Type} (c : TraceState T) : Op T → TraceState T
  | Op.swap new =>
      let res := c.st.swap new
      ⟨res.2, c.returned ++ res.1.toList, c.released⟩
  | Op.take =>
      let res := c.st.take
      ⟨res.2, c.returned ++ res.1.toList, c.released⟩
  | Op.store new =>
      let res := c.st.store new
      ⟨res.1, c.returned, c.released ++ res.2⟩

/-- Execute a sequence of calls left to right. -/
def runOps {T : Type} (c : TraceState T) : List (Op T) → TraceState T
  | [] => c
  | op :: ops => runOps (stepOp c op) ops

/-- The values a single call gives to the container. -/
def opGiven {T : Type} : Op T → List T
  | Op.swap new => new.toList
  | Op.take => []
  | Op.store new => new.toList

/-- All values whose ownership is ever given to the container across a
history: the construction argument followed by every call argument. -/
def givenValues {T : Type} (init : Option T) (ops : List (Op T)) : List T :=
  init.toList ++ (ops.map opGiven).flatten

/-- A complete container lifetime: construction from `init`, the calls
`ops`, then destruction (the `Drop` impl), with its released values
appended to the accounting. -/
def fullRun {T : Type} (init : Option T) (ops : List (Op T)) : TraceState T :=
  let res := AtomicOption.new init
  let c := runOps ⟨res.1, [], res.2⟩ ops
  let fin := c.st.dropDrain
  ⟨fin.1, c.returned, c.released ++ fin.2⟩

/-- Number of copies of `x` inside the slot (zero or one). -/
def ptrCount {T : Type} [DecidableEq T] (p : Ptr T) (x : T) : Nat :=
  ((rawToOption p).toList).count x

theorem runOps_count {T : Type} [DecidableEq T] (ops : List (Op T))
    (c : TraceState T) (x : T) :
    ptrCount (runOps c ops).st.inner x + ((runOps c ops).returned).count x +
      ((runOps c ops).released).count x =
    ptrCount c.st.inner x + ((ops.map opGiven).flatten).count x +
      c.returned.count x + c.released.count x := by
  induction ops generalizing c with
  | nil => simp [runOps]
  | cons op ops ih =>
      rw [runOps, ih]
      cases op <;>
        simp [stepOp, AtomicOption.take, AtomicOption.store, AtomicOption.swap,
          atomicPtrSwap, opGiven, ptrCount, rawToOption_optionToRaw,
          List.count_append] <;>
        omega

theorem fullRun_count {T : Type} [DecidableEq T] (init : Option T)
    (ops : List (Op T)) (x : T) :
    (givenValues init ops).count x =
      ((fullRun init ops).returned).count x + ((fullRun init ops).released).count x := by
  have h := runOps_count ops
    ⟨(AtomicOption.new init).1, [], (AtomicOption.new init).2⟩ x
  have hdrop : ∀ s : AtomicOption T,
      ((s.dropDrain).2).count x = ptrCount s.inner x := by
    intro s
    cases hs : s.inner <;>
      simp [AtomicOption.dropDrain, AtomicOption.take, AtomicOption.swap,
        atomicPtrSwap, rawToOption, optionToRaw, ptrCount, hs]
  have hinit1 : ptrCount ((AtomicOption.new init).1).inner x = (init.toList).count x := by
    cases init <;>
      simp [AtomicOption.new, AtomicOption.store, AtomicOption.swap,
        atomicPtrSwap, optionToRaw, rawToOption, ptrCount]
  have hinit2 : ((AtomicOption.new init).2).count x = 0 := by
    cases init <;>
      simp [AtomicOption.new, AtomicOption.store, AtomicOption.swap,
        atomicPtrSwap, optionToRaw, rawToOption]
  simp only [fullRun, givenValues, List.count_append, hdrop] at h ⊢
  simp only [List.count_nil] at h
  omega

/-- C8: over any finite sequence of calls ending in destruction of the
container, every value whose ownership was ever given to the container
(at construction or by a call) is handed off exactly once — it is
either returned to a caller exactly once or dropped by the container
(by `store` or by the final `Drop`) exactly once, never zero times and
never twice; destruction drains the slot through the `take`-equivalent
exchange, a no-op when the slot is already empty. -/
theorem atomption_C8 (T : Type) [DecidableEq T] (init : Option T)
    (ops : List (Op T)) (x : T) :
    (givenValues init ops).count x =
      ((fullRun init ops).returned).count x + ((fullRun init ops).released).count x ∧
    (fullRun init ops).st = AtomicOption.mk Ptr.null ∧
    ((AtomicOption.mk (Ptr.null : Ptr T)).dropDrain).2 = [] := by
  refine ⟨fullRun_count init ops x, ?_, rfl⟩
  simp [fullRun, AtomicOption.dropDrain, AtomicOption.take, AtomicOption.swap,
    atomicPtrSwap, optionToRaw]

/-- The sequence of previous-occupant values observed by a sequence of
calls: every call (swap, take, store alike) performs exactly one
`swap (opInput o)` on the current state, observes its result, and leaves
its post-state for the next call. -/
def obsRun {T : Type} (s : AtomicOption T) : List (Op T) → List (Option T)
  | [] => []
  | o :: ops => (s.swap (opInput o)).1 :: obsRun (s.swap (opInput o)).2 ops

/-- Each of the three calls leaves exactly the state of the one exchange
it performs, so `obsRun` follows the same states as `runOps`. -/
theorem stepOp_st {T : Type} (c : TraceState T) (o : Op T) :
    (stepOp c o).st = (c.st.swap (opInput o)).2 := by
  cases o <;> rfl

theorem obsRun_length {T : Type} (ops : List (Op T)) (s : AtomicOption T) :
    (obsRun s ops).length = ops.length := by
  induction ops generalizing s with
  | nil => rfl
  | cons o ops ih => simp [obsRun, ih]

theorem obsRun_chain {T : Type} (ops : List (Op T)) (s : AtomicOption T)
    (i : Nat) (h : i + 1 < ops.length) :
    (obsRun s ops).get? (i + 1) = (ops.get? i).map opInput := by
  induction ops generalizing s i with
  | nil => simp at h
  | cons o ops ih =>
      cases i with
      | zero =>
          cases ops with
          | nil => simp at h
          | cons o₂ ops₂ =>
              simp [obsRun, AtomicOption.swap, atomicPtrSwap,
                rawToOption_optionToRaw]
      | succ j =>
          have hj : j + 1 < ops.length := Nat.lt_of_succ_lt_succ h
          simpa [obsRun] using ih ((s.swap (opInput o)).2) j hj

/-- C9: in every total order of the calls — each call being the one
indivisible `atomicPtrSwap` exchange at its linearization point — every
call observes exactly the optional value installed by the immediately
preceding call (the first observes the initial slot contents), and each
value ever stored is handed out by exactly one later call or by the
final teardown, never by two and never by none. -/
theorem atomption_C9 (T : Type) [DecidableEq T] (init : Option T)
    (ops : List (Op T)) (s : AtomicOption T) (i : Nat) (x : T)
    (h : i + 1 < ops.length) :
    (obsRun s ops).get? (i + 1) = (ops.get? i).map opInput ∧
    (obsRun s ops).get? 0 = some (rawToOption s.inner) ∧
    (givenValues init ops).count x =
      ((fullRun init ops).returned).count x + ((fullRun init ops).released).count x := by
  refine ⟨obsRun_chain ops s i h, ?_, fullRun_count init ops x⟩
  cases ops with
  | nil => simp at h
  | cons o ops => rfl

/-- Witness for C9: two sequentialized calls, swap in 5 then take. -/
theorem atomption_C9_witness :
    (0 + 1 < ([Op.swap (some 5), Op.take] : List (Op Nat)).length) ∧
    ((obsRun (AtomicOption.mk (Ptr.null : Ptr Nat)) [Op.swap (some 5), Op.take]).get? (0 + 1) =
        (([Op.swap (some 5), Op.take] : List (Op Nat)).get? 0).map opInput ∧
     (obsRun (AtomicOption.mk (Ptr.null : Ptr Nat)) [Op.swap (some 5), Op.take]).get? 0 =
        some (rawToOption (AtomicOption.mk (Ptr.null : Ptr Nat)).inner) ∧
     (givenValues (none : Option Nat) [Op.swap (some 5), Op.take]).count 5 =
       ((fullRun (none : Option Nat) [Op.swap (some 5), Op.take]).returned).count 5 +
       ((fullRun (none : Option Nat) [Op.swap (some 5), Op.take]).released).count 5) :=
  ⟨by decide, atomption_C9 Nat none [Op.swap (some 5), Op.take] ⟨Ptr.null⟩ 0 5 (by decide)⟩

